import Mathlib

/-!
Verification of the check-execution engine of the `checkers` diagnostics
runner.

The development shallowly embeds the Go sources:
* `types/config.go` — `CheckItem`, `CheckResult`, `CheckStatus`;
* `internal/processor` (`ProcessOutput`) — classification of structured
  command output;
* `checks` registry — `Register` / `Get` over a string-keyed map;
* `internal/executor/executor.go` (`ExecuteCheck`) — the invocation
  adapter for native and command checks.  The nondeterministic parts
  (the race between the per-check deadline and the work, the subprocess
  exit) are parameters: a `RaceEvent` says which arm of the Go `select`
  fired, a `CmdEnv` carries what `cmd.Start`/`cmd.Wait` and the two
  output buffers produced;
* `cmd/root.go` (`run`) — the scheduler's result-collection loop,
  deadline synthesis pass and final sort.  Arrival nondeterminism is a
  parameter: `posted` is the list of goroutine messages the loop
  processed before the run deadline, in arrival order.

`encoding/json`'s `json.Unmarshal` into `map[string]interface{}` is
embedded as an executable JSON parser (`parseJson` / `unmarshalObj`).
It follows RFC JSON grammar; `\uXXXX` escapes and non-ASCII case
folding are approximated, which no statement below depends on.
-/

namespace Checkers

/-! ### JSON values and parser (embedding of `encoding/json` unmarshalling) -/

/-- A decoded JSON value, as `json.Unmarshal` into `interface{}` would
produce it.  Object fields keep source order; lookups take the last
binding of a key, matching Go's map semantics for duplicate keys. -/
inductive JValue where
  | null
  | bool (b : Bool)
  | num (lexeme : String)
  | str (s : String)
  | arr (elems : List JValue)
  | obj (fields : List (String × JValue))

/-- Whether a decoded value is JSON `null`, which `json.Unmarshal`
stores as the Go `nil` interface (so `m[k] != nil` is false for it). -/
def JValue.isNull : JValue → Bool
  | .null => true
  | _ => false

def isWs (c : Char) : Bool :=
  c = ' ' ∨ c = '\n' ∨ c = '\t' ∨ c = '\r'

def skipWs : List Char → List Char
  | [] => []
  | c :: cs => if isWs c then skipWs cs else c :: cs

/-- Decoding of a JSON escape sequence (approximate for `\uXXXX`). -/
def unescapeChar (c : Char) : Char :=
  if c = 'n' then '\n' else if c = 't' then '\t' else if c = 'r' then '\r' else c

/-- Parses a JSON string body after the opening quote, returning the
decoded characters and the remaining input. -/
def parseStringBody : List Char → Option (List Char × List Char)
  | [] => none
  | c :: cs =>
    if c = '\"' then some ([], cs)
    else if c = '\\' then
      match cs with
      | [] => none
      | e :: cs' =>
        match parseStringBody cs' with
        | some (acc, rest) => some (unescapeChar e :: acc, rest)
        | none => none
    else
      match parseStringBody cs with
      | some (acc, rest) => some (c :: acc, rest)
      | none => none

def isDigit (c : Char) : Bool := '0' ≤ c ∧ c ≤ '9'

def takeDigits : List Char → List Char × List Char
  | [] => ([], [])
  | c :: cs =>
    if isDigit c then
      let (ds, rest) := takeDigits cs
      (c :: ds, rest)
    else ([], c :: cs)

def parseFracPart : List Char → Option (List Char × List Char)
  | '.' :: r =>
    (match takeDigits r with
     | ([], _) => none
     | (ds, rest) => some ('.' :: ds, rest))
  | cs => some ([], cs)

def parseExpTail (e : Char) : List Char → Option (List Char × List Char)
  | '+' :: r =>
    (match takeDigits r with
     | ([], _) => none
     | (ds, rest) => some (e :: '+' :: ds, rest))
  | '-' :: r =>
    (match takeDigits r with
     | ([], _) => none
     | (ds, rest) => some (e :: '-' :: ds, rest))
  | r =>
    match takeDigits r with
    | ([], _) => none
    | (ds, rest) => some (e :: ds, rest)

def parseExpPart : List Char → Option (List Char × List Char)
  | 'e' :: r => parseExpTail 'e' r
  | 'E' :: r => parseExpTail 'E' r
  | cs => some ([], cs)

/-- Parses a JSON number, keeping the lexeme (its numeric value is
never consulted by the checked code). -/
def parseNumber (cs : List Char) : Option (String × List Char) :=
  let signAndRest : List Char × List Char :=
    match cs with
    | '-' :: r => (['-'], r)
    | _ => ([], cs)
  match takeDigits signAndRest.2 with
  | ([], _) => none
  | (ds, r₁) =>
    match parseFracPart r₁ with
    | none => none
    | some (fs, r₂) =>
      match parseExpPart r₂ with
      | none => none
      | some (es, r₃) => some (String.mk (signAndRest.1 ++ ds ++ fs ++ es), r₃)

mutual

/-- Parses one JSON value from the input (fuel-indexed so that the
function is structurally recursive and kernel-reducible). -/
def parseValue : Nat → List Char → Option (JValue × List Char)
  | 0, _ => none
  | Nat.succ f, cs =>
    match skipWs cs with
    | [] => none
    | c :: rest =>
      if c = '\"' then
        match parseStringBody rest with
        | some (acc, r) => some (.str (String.mk acc), r)
        | none => none
      else if c = '\x7b' then parseObjRest f (skipWs rest) true []
      else if c = '[' then parseArrRest f (skipWs rest) true []
      else if c = 't' then
        match rest with
        | 'r' :: 'u' :: 'e' :: r => some (.bool true, r)
        | _ => none
      else if c = 'f' then
        match rest with
        | 'a' :: 'l' :: 's' :: 'e' :: r => some (.bool false, r)
        | _ => none
      else if c = 'n' then
        match rest with
        | 'u' :: 'l' :: 'l' :: r => some (.null, r)
        | _ => none
      else
        match parseNumber (c :: rest) with
        | some (lex, r) => some (.num lex, r)
        | none => none

/-- Parses the members of a JSON object after the opening brace; the
input is expected to start at a non-whitespace character. -/
def parseObjRest : Nat → List Char → Bool → List (String × JValue) → Option (JValue × List Char)
  | 0, _, _, _ => none
  | Nat.succ f, cs, first, acc =>
    match cs with
    | '\x7d' :: r => if first then some (.obj acc.reverse, r) else none
    | _ =>
      match skipWs cs with
      | '\"' :: kr =>
        (match parseStringBody kr with
         | none => none
         | some (key, r₁) =>
           match skipWs r₁ with
           | ':' :: r₂ =>
             (match parseValue f r₂ with
              | none => none
              | some (v, r₃) =>
                let acc' := (String.mk key, v) :: acc
                match skipWs r₃ with
                | ',' :: r₄ => parseObjRest f (skipWs r₄) false acc'
                | '\x7d' :: r₄ => some (.obj acc'.reverse, r₄)
                | _ => none)
           | _ => none)
      | _ => none

/-- Parses the elements of a JSON array after the opening bracket. -/
def parseArrRest : Nat → List Char → Bool → List JValue → Option (JValue × List Char)
  | 0, _, _, _ => none
  | Nat.succ f, cs, first, acc =>
    match cs with
    | ']' :: r => if first then some (.arr acc.reverse, r) else none
    | _ =>
      match parseValue f cs with
      | none => none
      | some (v, r₁) =>
        let acc' := v :: acc
        match skipWs r₁ with
        | ',' :: r₂ => parseArrRest f r₂ false acc'
        | ']' :: r₂ => some (.arr acc'.reverse, r₂)
        | _ => none

end

/-- Parses a complete JSON document: one value, with only whitespace
allowed around it (trailing data is an `Unmarshal` error in Go). -/
def parseJson (s : String) : Option JValue :=
  match parseValue (s.length + 1) s.toList with
  | none => none
  | some (v, rest) =>
    match skipWs rest with
    | [] => some v
    | _ => none

/-- Embeds `json.Unmarshal(data, &m)` for `m : map[string]interface{}`:
succeeds on a JSON object (yielding its fields) and on `null` (yielding
the nil map); any other document is an unmarshalling error. -/
def unmarshalObj (s : String) : Option (List (String × JValue)) :=
  match parseJson s with
  | some (.obj fields) => some fields
  | some .null => some []
  | _ => none

/-! ### Data model (`types/config.go`) -/

/-- Go `types.CheckStatus` is a string type; its zero value is `""`. -/
abbrev CheckStatus := String

def Success : CheckStatus := "Success"

def Failure : CheckStatus := "Failure"

def Warning : CheckStatus := "Warning"

def Error : CheckStatus := "Error"

/-- Go `types.CheckItem` (one configured check).  `parameters` is an
association list standing for the Go string map. -/
structure CheckItem where
  name : String := ""
  description : String := ""
  type : String := ""
  command : String := ""
  parameters : List (String × String) := []
deriving DecidableEq

/-- Go `types.CheckResult`; absent fields default to Go zero values. -/
structure CheckResult where
  name : String := ""
  type : String := ""
  status : CheckStatus := ""
  output : String := ""
  error : String := ""
deriving DecidableEq

/-! ### Output processor (`internal/processor`, `ProcessOutput`) -/

/-- Lookup in a decoded JSON object, with Go-map semantics: the last
binding of a key wins, a missing key gives `none`. -/
def getField (output : List (String × JValue)) (key : String) : Option JValue :=
  output.foldl (fun acc kv => if kv.1 = key then some kv.2 else acc) none

/-- Embeds the Go guard `errStr, ok := output["error"].(string); ok && errStr != ""`:
the value of the `error` key when it is a non-empty string. -/
def errorFieldOf (output : List (String × JValue)) : Option String :=
  match getField output "error" with
  | some (.str s) => if s = "" then none else some s
  | _ => none

/-- ASCII lowering of a string, as `strings.ToLower` performs on the
status values involved (written via `List.map` so it kernel-reduces). -/
def strToLower (s : String) : String := String.mk (s.data.map Char.toLower)

/-- Final step of `ProcessOutput`: copy a string `output` value into
the result (`if output, ok := output["output"].(string); ok`). -/
def copyOutputField (base : CheckResult) (output : List (String × JValue)) : CheckResult :=
  match getField output "output" with
  | some (.str s) => { base with output := s }
  | _ => base

/-- The `switch strings.ToLower(status)` of `ProcessOutput`. -/
def statusStringBase (checkName checkType status : String) : CheckResult :=
  if strToLower status = "success" ∨ strToLower status = "pass" then
    { name := checkName, type := checkType, status := Success }
  else if strToLower status = "failure" ∨ strToLower status = "fail" then
    { name := checkName, type := checkType, status := Failure }
  else if strToLower status = "warning" ∨ strToLower status = "warn" then
    { name := checkName, type := checkType, status := Warning }
  else
    { name := checkName, type := checkType, status := Error,
      error := "unknown status: " ++ status }

/-- The no-string-status fallback of `ProcessOutput`: a non-nil
`output` value counts as success, otherwise an error. -/
def outputOnlyBase (checkName checkType : String) (output : List (String × JValue)) : CheckResult :=
  match getField output "output" with
  | some v =>
    if v.isNull then
      { name := checkName, type := checkType, status := Error,
        error := "no status or output provided" }
    else
      { name := checkName, type := checkType, status := Success }
  | none =>
    { name := checkName, type := checkType, status := Error,
      error := "no status or output provided" }

/-- Status-and-output part of `ProcessOutput`, entered when the `error`
key holds no non-empty string. -/
def processStatusPart (checkName checkType : String) (output : List (String × JValue)) : CheckResult :=
  let base : CheckResult :=
    match getField output "status" with
    | some (.str status) => statusStringBase checkName checkType status
    | _ => outputOnlyBase checkName checkType output
  copyOutputField base output

/-- Embeds `Processor.ProcessOutput` over an already-decoded output
map: the `error` key (non-empty string) wins, then the `status` key is
normalized case-insensitively, then a bare `output` value counts as
success; a string `output` value is copied into the result. -/
def ProcessOutput (checkName checkType : String) (output : List (String × JValue)) : CheckResult :=
  match errorFieldOf output with
  | some errStr =>
    { name := checkName, type := checkType, status := Error, error := errStr }
  | none => processStatusPart checkName checkType output

/-! ### Check registry (`checks` package: `Registry`, `Register`, `Get`) -/

/-- Go `checks.CheckFunc`: a native check returns a result and an
invocation error. -/
abbrev CheckFunc := CheckItem → CheckResult × Option String

/-- Go `checks.Check`: one registered check. -/
structure Check where
  name : String
  description : String
  func : CheckFunc

/-- The registry map, embedded as an association list with Go-map
observational semantics: `lookup` returns the most recent binding. -/
abbrev Registry := List (String × Check)

/-- Go `checks.Register`: `Registry[name] = Check{name, description, fn}`
(insert or overwrite). -/
def Register (reg : Registry) (name description : String) (fn : CheckFunc) : Registry :=
  (name, { name := name, description := description, func := fn }) :: reg

/-- Go `checks.Get`: exact-match lookup, an error value when absent. -/
def Get (reg : Registry) (name : String) : Except String Check :=
  match reg.lookup name with
  | some check => .ok check
  | none => .error ("check " ++ name ++ " not found")

/-! ### Invocation adapter (`internal/executor`, `ExecuteCheck`)

The Go function races the check's work against a context deadline and
inspects the subprocess state; those environment-determined outcomes
enter the embedding as explicit parameters. -/

/-- The Go `error` values `ExecuteCheck` can return alongside a result. -/
inductive GoErr where
  | deadlineExceeded
  | other (msg : String)
deriving DecidableEq

/-- Which arm of the Go `select` fired for this check: the work
finished, the per-check/run deadline elapsed (`context.DeadlineExceeded`),
or the context was canceled for another reason. -/
inductive RaceEvent where
  | finished
  | timedOut
  | canceled (msg : String)
deriving DecidableEq

/-- What `cmd.Wait` reported: success, a non-zero exit
(`*exec.ExitError` with this exit code), or another wait error. -/
inductive WaitOutcome where
  | ok
  | exit (code : Int)
  | failMsg (msg : String)
deriving DecidableEq

/-- The subprocess-side behaviour of one command check: whether
`cmd.Start` failed, what `cmd.Wait` returned, and the captured stdout
and stderr buffers. -/
structure CmdEnv where
  startErr : Option String := none
  wait : WaitOutcome := .ok
  stdout : String := ""
  stderr : String := ""
deriving DecidableEq

/-- The Go zero value `types.CheckResult{}` returned on non-deadline
context errors. -/
def emptyCheckResult : CheckResult := {}

/-- The adapter-level timeout result (`"command execution timed out"`),
identical for the native and the command branch. -/
def timeoutCmdResult (check : CheckItem) : CheckResult :=
  { name := check.name, type := check.type, status := Error,
    output := "command execution timed out" }

/-- Backfilling of `Name`/`Type` from the spec when a native check left
them empty. -/
def backfillIdentity (result : CheckResult) (check : CheckItem) : CheckResult :=
  let r := if result.name = "" then { result with name := check.name } else result
  if r.type = "" then { r with type := check.type } else r

/-- Embeds `strings.TrimSpace` (ASCII whitespace, which is all the
checked strings contain), written over character lists so that it
kernel-reduces. -/
def trimSpace (s : String) : String :=
  String.mk (((s.data.dropWhile isWs).reverse.dropWhile isWs).reverse)

/-- Combination of the captured buffers: trimmed stdout, with trimmed
stderr appended (on a new line when stdout is non-empty) whenever the
raw stderr buffer is non-empty. -/
def combinedOutput (stdout stderr : String) : String :=
  let output := trimSpace stdout
  if stderr ≠ "" then
    (if output ≠ "" then output ++ "\n" else output) ++ trimSpace stderr
  else output

/-- Classification of a finished command: non-zero exit and wait errors
map to `Error`; on exit zero the combined output is unmarshalled as a
JSON object and processed, or wrapped as `{"output": output}` when it
is not valid JSON. -/
def classifyCmdOutput (check : CheckItem) (w : WaitOutcome) (stdout stderr : String) : CheckResult :=
  let output := combinedOutput stdout stderr
  match w with
  | .exit code =>
    { name := check.name, type := check.type, status := Error,
      output := output, error := "command failed with exit code " ++ toString code }
  | .failMsg msg =>
    { name := check.name, type := check.type, status := Error, error := msg }
  | .ok =>
    match unmarshalObj output with
    | some fields => ProcessOutput check.name check.type fields
    | none => ProcessOutput check.name check.type [("output", .str output)]

/-- Embeds `Executor.ExecuteCheck`: the native branch (registry hit)
races the check function against the deadline; otherwise the command
branch validates the spec, starts the subprocess and races `cmd.Wait`
against the deadline. -/
def ExecuteCheck (reg : Registry) (check : CheckItem) (race : RaceEvent) (env : CmdEnv) :
    CheckResult × Option GoErr :=
  match reg.lookup check.type with
  | some checkFunc =>
    match race with
    | .timedOut => (timeoutCmdResult check, some .deadlineExceeded)
    | .canceled msg => (emptyCheckResult, some (.other msg))
    | .finished =>
      let fnOut := checkFunc.func check
      match fnOut.2 with
      | some e =>
        ({ name := check.name, type := check.type, status := Error,
           error := "failed to execute check: " ++ e }, none)
      | none => (backfillIdentity fnOut.1 check, none)
  | none =>
    if check.type ≠ "command" then
      ({ name := check.name, type := check.type, status := Error,
         output := "unsupported check type: " ++ check.type }, none)
    else if check.command = "" then
      ({ name := check.name, type := check.type, status := Error,
         output := "no command specified" }, none)
    else
      match env.startErr with
      | some msg =>
        ({ name := check.name, type := check.type, status := Error,
           error := "failed to start command: " ++ msg }, none)
      | none =>
        match race with
        | .timedOut => (timeoutCmdResult check, some .deadlineExceeded)
        | .canceled msg => (emptyCheckResult, some (.other msg))
        | .finished => (classifyCmdOutput check env.wait env.stdout env.stderr, none)

/-! ### Scheduler result collection (`cmd/root.go`, `run`) -/

/-- One message on the scheduler's result channel: the originating
spec, the result, and the `error` return of `ExecuteCheck`. -/
structure Posted where
  item : CheckItem
  result : CheckResult
  err : Option GoErr
deriving DecidableEq

/-- The collection loop's accumulators (`results`, `timedOutChecks`,
`failedChecks`). -/
structure RunState where
  results : List CheckResult := []
  timedOutChecks : List CheckItem := []
  failedChecks : List String := []
deriving DecidableEq

/-- The scheduler-synthesized timeout result
(`"check execution timed out"`). -/
def schedTimeoutResult (item : CheckItem) : CheckResult :=
  { name := item.name, type := item.type, status := Error,
    output := "check execution timed out" }

/-- The result the loop records when `ExecuteCheck` returned a
non-deadline error (`"check failed: %v"`). -/
def checkFailedResult (item : CheckItem) (msg : String) : CheckResult :=
  { name := item.name, type := item.type, status := Error,
    output := "check failed: " ++ msg }

/-- Processing of one arrived message in the collection loop. -/
def collectOne (st : RunState) (p : Posted) : RunState :=
  match p.err with
  | some .deadlineExceeded =>
    { results := st.results ++ [schedTimeoutResult p.item],
      timedOutChecks := st.timedOutChecks ++ [p.item],
      failedChecks := st.failedChecks ++ [p.item.name] }
  | some (.other msg) =>
    { results := st.results ++ [checkFailedResult p.item msg],
      timedOutChecks := st.timedOutChecks,
      failedChecks := st.failedChecks ++ [p.item.name] }
  | none =>
    if p.result.status ≠ Success then
      { results := st.results ++ [p.result],
        timedOutChecks := st.timedOutChecks,
        failedChecks := st.failedChecks ++ [p.item.name] }
    else
      { st with results := st.results ++ [p.result] }

/-- Whether a result with this name is already present (the `found`
scan of the deadline branch, matching by `Name`). -/
def hasName (rs : List CheckResult) (n : String) : Bool :=
  rs.any (fun r => r.name == n)

/-- One step of the deadline branch: synthesize a timeout result for a
configured check unless a result with its name was already collected. -/
def synthStep (st : RunState) (check : CheckItem) : RunState :=
  if hasName st.results check.name then st
  else
    { results := st.results ++ [schedTimeoutResult check],
      timedOutChecks := st.timedOutChecks ++ [check],
      failedChecks := st.failedChecks ++ [check.name] }

/-- The deadline branch: walk all configured checks, synthesizing
timeout results for the missing names. -/
def synthPhase (checks : List CheckItem) (st : RunState) : RunState :=
  checks.foldl synthStep st

/-- The collection loop of `run`: process the messages that arrived
before the run deadline, then, if some checks were still outstanding,
run the deadline branch over the whole configured list. -/
def runCollect (checks : List CheckItem) (posted : List Posted) : RunState :=
  let st := posted.foldl collectOne {}
  if posted.length < checks.length then synthPhase checks st else st

/-- The stable presentation `run` hands to the formatter: results
sorted ascending by name (`sort.Slice` on `Name <`). -/
def sortResults (results : List CheckResult) : List CheckResult :=
  results.mergeSort (fun a b => decide (a.name ≤ b.name))

/-- The full collection pipeline: collect, then sort by name. -/
def runSortedResults (checks : List CheckItem) (posted : List Posted) : List CheckResult :=
  sortResults (runCollect checks posted).results

/-! ### Shared helper lemmas -/

theorem append_ne_empty_left (s t : String) (h : s ≠ "") : s ++ t ≠ "" := by
  intro hc
  apply h
  have hd := congrArg String.data hc
  simp only [String.data_append] at hd
  have := List.append_eq_nil.mp hd
  cases s
  simp_all

theorem copyOutputField_status (base : CheckResult) (output : List (String × JValue)) :
    (copyOutputField base output).status = base.status := by
  match h : getField output "output" with
  | none => simp [copyOutputField, h]
  | some v => cases v <;> simp [copyOutputField, h]

theorem copyOutputField_error (base : CheckResult) (output : List (String × JValue)) :
    (copyOutputField base output).error = base.error := by
  match h : getField output "output" with
  | none => simp [copyOutputField, h]
  | some v => cases v <;> simp [copyOutputField, h]

/-! ### Claim C7 — registry insert/overwrite and lookup -/

/-- Claim C7: `Register` inserts or overwrites the entry for exactly its
type identifier, so a subsequent `Get` returns the most recently
registered check; `Get` on an identifier never registered returns a
not-found error value (never a panic), and registering one identifier
leaves every other lookup unchanged. -/
theorem registry_register_get (reg : Registry) (n d d' m : String) (f f' : CheckFunc) :
    Get (Register reg n d f) n = .ok { name := n, description := d, func := f }
    ∧ Get (Register (Register reg n d f) n d' f') n = .ok { name := n, description := d', func := f' }
    ∧ (m ≠ n → Get (Register reg n d f) m = Get reg m)
    ∧ (reg.lookup m = none → Get reg m = .error ("check " ++ m ++ " not found")) := by
  refine ⟨?_, ?_, ?_, ?_⟩
  · simp [Get, Register, List.lookup]
  · simp [Get, Register, List.lookup]
  · intro h
    have hb : (m == n) = false := beq_eq_false_iff_ne.mpr h
    simp [Get, Register, List.lookup, hb]
  · intro h
    simp [Get, h]

/-- Concrete instantiation of `registry_register_get`. -/
theorem registry_register_get_witness :
    Get (Register [] "os.file_exists" "file check" (fun _ => ({}, none))) "os.file_exists"
      = .ok { name := "os.file_exists", description := "file check",
              func := (fun _ => ({}, none) : CheckFunc) }
    ∧ Get ([] : Registry) "cloud.missing" = .error "check cloud.missing not found" := by
  have h := registry_register_get [] "os.file_exists" "file check" "x" "cloud.missing"
    (fun _ => ({}, none)) (fun _ => ({}, none))
  exact ⟨h.1, h.2.2.2 rfl⟩

/-! ### Claim C6 — unsupported type and missing command -/

/-- Claim C6: a spec whose type is neither `"command"` nor registered
yields an `Error` result mentioning "unsupported check type", returned
as a value (`nil` Go error); a `"command"` spec with an empty command
string yields an `Error` result with "no command specified". -/
theorem unsupported_check_type (reg : Registry) (check : CheckItem) (race : RaceEvent) (env : CmdEnv) :
    (reg.lookup check.type = none → check.type ≠ "command" →
      ExecuteCheck reg check race env
        = ({ name := check.name, type := check.type, status := Error,
             output := "unsupported check type: " ++ check.type }, none))
    ∧ (reg.lookup "command" = none → check.type = "command" → check.command = "" →
      ExecuteCheck reg check race env
        = ({ name := check.name, type := check.type, status := Error,
             output := "no command specified" }, none)) := by
  constructor
  · intro h1 h2
    simp [ExecuteCheck, h1, h2]
  · intro h1 h2 h3
    simp [ExecuteCheck, h2, h1, h3]

/-- Concrete instantiation of `unsupported_check_type`. -/
theorem unsupported_check_type_witness :
    ExecuteCheck [] ⟨"w", "", "widget", "", []⟩ .finished {}
      = ({ name := "w", type := "widget", status := Error,
           output := "unsupported check type: widget" }, none)
    ∧ ExecuteCheck [] ⟨"c", "", "command", "", []⟩ .finished {}
      = ({ name := "c", type := "command", status := Error,
           output := "no command specified" }, none) := by
  refine ⟨?_, ?_⟩
  · have h := (unsupported_check_type [] ⟨"w", "", "widget", "", []⟩ .finished {}).1 rfl (by decide)
    simpa using h
  · have h := (unsupported_check_type [] ⟨"c", "", "command", "", []⟩ .finished {}).2 rfl rfl rfl
    simpa using h

/-! ### Claim C10 — error-field precedence in structured output -/

/-- Claim C10: in a structured output map, a non-empty string under the
`error` key forces an `Error` result carrying that string, regardless
of any `status` value in the same map. -/
theorem error_field_precedence (n t s : String) (fields : List (String × JValue))
    (h1 : getField fields "error" = some (.str s)) (h2 : s ≠ "") :
    ProcessOutput n t fields = { name := n, type := t, status := Error, error := s } := by
  simp [ProcessOutput, errorFieldOf, h1, h2]

/-- Concrete instantiation of `error_field_precedence`: the `error` key
wins even over `"status": "success"`. -/
theorem error_field_precedence_witness :
    ProcessOutput "n" "t" [("status", JValue.str "success"), ("error", JValue.str "boom")]
      = { name := "n", type := "t", status := Error, error := "boom" } :=
  error_field_precedence "n" "t" "boom" _ rfl (by decide)

/-! ### Claim C5 — case-insensitive status normalization -/

/-- Claim C5: when no non-empty `error` string is present and the
`status` field is a string, classification lowercases it and maps
`success`/`pass` to Success, `failure`/`fail` to Failure,
`warning`/`warn` to Warning; any other status string yields `Error`
(with an "unknown status" diagnostic). -/
theorem status_normalization (n t s : String) (fields : List (String × JValue))
    (h1 : errorFieldOf fields = none)
    (h2 : getField fields "status" = some (.str s)) :
    ((strToLower s = "success" ∨ strToLower s = "pass") →
      (ProcessOutput n t fields).status = Success)
    ∧ ((strToLower s = "failure" ∨ strToLower s = "fail") →
      (ProcessOutput n t fields).status = Failure)
    ∧ ((strToLower s = "warning" ∨ strToLower s = "warn") →
      (ProcessOutput n t fields).status = Warning)
    ∧ (¬(strToLower s = "success" ∨ strToLower s = "pass") →
      ¬(strToLower s = "failure" ∨ strToLower s = "fail") →
      ¬(strToLower s = "warning" ∨ strToLower s = "warn") →
      (ProcessOutput n t fields).status = Error
        ∧ (ProcessOutput n t fields).error = "unknown status: " ++ s) := by
  have hP : ProcessOutput n t fields = copyOutputField (statusStringBase n t s) fields := by
    simp [ProcessOutput, h1, processStatusPart, h2]
  refine ⟨fun hc => ?_, fun hc => ?_, fun hc => ?_, fun hc1 hc2 hc3 => ⟨?_, ?_⟩⟩ <;>
    rw [hP]
  · rw [copyOutputField_status]
    unfold statusStringBase
    rw [if_pos hc]
  · rw [copyOutputField_status]
    unfold statusStringBase
    rw [if_neg ?_, if_pos hc]
    intro hc'
    rcases hc with h | h <;> rcases hc' with h' | h' <;> simp [h] at h'
  · rw [copyOutputField_status]
    unfold statusStringBase
    rw [if_neg ?_, if_neg ?_, if_pos hc]
    · intro hc'
      rcases hc with h | h <;> rcases hc' with h' | h' <;> simp [h] at h'
    · intro hc'
      rcases hc with h | h <;> rcases hc' with h' | h' <;> simp [h] at h'
  · rw [copyOutputField_status]
    unfold statusStringBase
    rw [if_neg hc1, if_neg hc2, if_neg hc3]
  · rw [copyOutputField_error]
    unfold statusStringBase
    rw [if_neg hc1, if_neg hc2, if_neg hc3]

/-- Concrete instantiation of `status_normalization`: `"WaRn"` maps to
Warning, `"bogus"` maps to Error. -/
theorem status_normalization_witness :
    (ProcessOutput "n" "t" [("status", JValue.str "WaRn"), ("output", JValue.str "x")]).status
      = Warning
    ∧ (ProcessOutput "n" "t" [("status", JValue.str "bogus")]).status = Error := by
  constructor
  · exact (status_normalization "n" "t" "WaRn"
      [("status", JValue.str "WaRn"), ("output", JValue.str "x")] rfl rfl).2.2.1
      (Or.inr (by decide))
  · exact ((status_normalization "n" "t" "bogus"
      [("status", JValue.str "bogus")] rfl rfl).2.2.2
      (by decide) (by decide) (by decide)).1

/-! ### Claim C2 — timeout dominance -/

/-- Membership characterization of the deadline branch: it only ever
appends scheduler timeout results. -/
theorem synthPhase_results_mem (checks : List CheckItem) (st : RunState) :
    ∀ r ∈ (synthPhase checks st).results,
      r ∈ st.results ∨ ∃ c ∈ checks, r = schedTimeoutResult c := by
  induction checks generalizing st with
  | nil => exact fun r hr => .inl hr
  | cons c cs ih =>
    intro r hr
    have hr' : r ∈ (synthPhase cs (synthStep st c)).results := hr
    rcases ih (synthStep st c) r hr' with h | ⟨c', hc', he⟩
    · unfold synthStep at h
      by_cases hn : hasName st.results c.name
      · rw [if_pos hn] at h
        exact .inl h
      · rw [if_neg hn] at h
        simp only [List.mem_append, List.mem_singleton] at h
        rcases h with h | h
        · exact .inl h
        · exact .inr ⟨c, List.mem_cons_self .., h⟩
    · exact .inr ⟨c', List.mem_cons_of_mem _ hc', he⟩

/-- Claim C2: once a check's deadline elapsed, the recorded outcome is
`Error` with the timed-out output, regardless of what the check's work
would have produced: the adapter returns `"command execution timed out"`
alongside `context.DeadlineExceeded`, the collection loop records
`"check execution timed out"` for such a message, and the deadline
branch only ever synthesizes `"check execution timed out"` results. -/
theorem timeout_dominance (reg : Registry) (check : CheckItem) (env : CmdEnv)
    (st : RunState) (p : Posted) (checks : List CheckItem) :
    ((reg.lookup check.type).isSome ∨
        (check.type = "command" ∧ check.command ≠ "" ∧ env.startErr = none) →
      ExecuteCheck reg check .timedOut env = (timeoutCmdResult check, some .deadlineExceeded)
        ∧ (timeoutCmdResult check).status = Error
        ∧ (timeoutCmdResult check).output = "command execution timed out")
    ∧ (p.err = some .deadlineExceeded →
      (collectOne st p).results = st.results ++ [schedTimeoutResult p.item]
        ∧ (schedTimeoutResult p.item).status = Error
        ∧ (schedTimeoutResult p.item).output = "check execution timed out")
    ∧ (∀ r ∈ (synthPhase checks st).results,
        r ∈ st.results ∨ ∃ c ∈ checks, r = schedTimeoutResult c) := by
  refine ⟨fun h => ⟨?_, rfl, rfl⟩, fun h => ⟨?_, rfl, rfl⟩, synthPhase_results_mem checks st⟩
  · match hl : reg.lookup check.type with
    | some c => simp [ExecuteCheck, hl]
    | none =>
      rcases h with h | ⟨h2, h3, h4⟩
      · rw [hl] at h
        simp at h
      · rw [h2] at hl
        simp [ExecuteCheck, hl, h2, h3, h4]
  · simp [collectOne, h]

/-- Concrete instantiation of `timeout_dominance`. -/
theorem timeout_dominance_witness :
    ExecuteCheck [] ⟨"slow", "", "command", "sleep 9", []⟩ .timedOut {}
      = (timeoutCmdResult ⟨"slow", "", "command", "sleep 9", []⟩, some .deadlineExceeded)
    ∧ (collectOne {} ⟨⟨"slow", "", "command", "sleep 9", []⟩, {}, some .deadlineExceeded⟩).results
      = [schedTimeoutResult ⟨"slow", "", "command", "sleep 9", []⟩] := by
  have h := timeout_dominance [] ⟨"slow", "", "command", "sleep 9", []⟩ {} {}
    ⟨⟨"slow", "", "command", "sleep 9", []⟩, {}, some .deadlineExceeded⟩ []
  refine ⟨(h.1 (Or.inr ⟨rfl, by decide, rfl⟩)).1, ?_⟩
  have h2 := (h.2.1 rfl).1
  simpa using h2

/-! ### Claim C3 — exit-code mapping for command checks -/

/-- Counterexample to claim C3 as stated: a command exiting zero with
non-JSON stdout and non-empty stderr yields `Success`, but the recorded
output is the stdout-plus-stderr combination, not the trimmed stdout
alone. -/
theorem cmd_exit_code_cex :
    parseJson "hello" = none
    ∧ (ExecuteCheck [] ⟨"c", "", "command", "mycmd", []⟩ .finished
        { startErr := none, wait := .ok, stdout := "hello", stderr := "oops" }).1.status = Success
    ∧ (ExecuteCheck [] ⟨"c", "", "command", "mycmd", []⟩ .finished
        { startErr := none, wait := .ok, stdout := "hello", stderr := "oops" }).1.output
      = "hello\noops"
    ∧ "hello\noops" ≠ "hello" :=
  ⟨rfl, rfl, rfl, by decide⟩

/-- Claim C3, amended: a non-zero exit always yields `Error` recording
the exit code in the error field, regardless of the captured output
(the exit code wins over any JSON status); a zero exit whose combined
trimmed stdout-plus-stderr text does not unmarshal as a JSON object
yields `Success` with that combined text as output, and the combined
text equals the trimmed stdout when stderr is empty. -/
theorem cmd_exit_code (reg : Registry) (check : CheckItem) (env : CmdEnv) (code : Int)
    (h1 : reg.lookup check.type = none) (h2 : check.type = "command")
    (h3 : check.command ≠ "") (h4 : env.startErr = none) :
    (env.wait = .exit code →
      ExecuteCheck reg check .finished env
        = ({ name := check.name, type := check.type, status := Error,
             output := combinedOutput env.stdout env.stderr,
             error := "command failed with exit code " ++ toString code }, none))
    ∧ (env.wait = .ok → unmarshalObj (combinedOutput env.stdout env.stderr) = none →
      ExecuteCheck reg check .finished env
        = ({ name := check.name, type := check.type, status := Success,
             output := combinedOutput env.stdout env.stderr }, none))
    ∧ (env.stderr = "" → combinedOutput env.stdout env.stderr = trimSpace env.stdout) := by
  rw [h2] at h1
  refine ⟨fun hw => ?_, fun hw hun => ?_, fun he => ?_⟩
  · simp [ExecuteCheck, h1, h2, h3, h4, classifyCmdOutput, hw]
  · simp [ExecuteCheck, h1, h2, h3, h4, classifyCmdOutput, hw, hun, ProcessOutput,
      errorFieldOf, processStatusPart, outputOnlyBase, copyOutputField, getField, JValue.isNull]
  · simp [combinedOutput, he]

/-- Concrete instantiation of `cmd_exit_code`: exit code 3 with a JSON
`success` status on stdout still maps to `Error`, and a clean `echo`
maps to `Success`. -/
theorem cmd_exit_code_witness :
    ExecuteCheck [] ⟨"c", "", "command", "mycmd", []⟩ .finished
        { startErr := none, wait := .exit 3,
          stdout := "\x7b\"status\":\"success\"\x7d", stderr := "" }
      = ({ name := "c", type := "command", status := Error,
           output := "\x7b\"status\":\"success\"\x7d",
           error := "command failed with exit code 3" }, none)
    ∧ ExecuteCheck [] ⟨"c", "", "command", "echo hi", []⟩ .finished
        { startErr := none, wait := .ok, stdout := "hi\n", stderr := "" }
      = ({ name := "c", type := "command", status := Success, output := "hi" }, none) := by
  constructor
  · have h := (cmd_exit_code [] ⟨"c", "", "command", "mycmd", []⟩
      { startErr := none, wait := .exit 3,
        stdout := "\x7b\"status\":\"success\"\x7d", stderr := "" } 3
      rfl rfl (by decide) rfl).1 rfl
    simpa using h
  · have h := (cmd_exit_code [] ⟨"c", "", "command", "echo hi", []⟩
      { startErr := none, wait := .ok, stdout := "hi\n", stderr := "" } 0
      rfl rfl (by decide) rfl).2.1 rfl rfl
    simpa using h

/-! ### Claim C9 — stderr is appended before JSON parsing -/

/-- Counterexample to claim C9 as stated: with stdout a valid JSON
object and stderr `" "` (non-empty, trimming to nothing), the combined
text is still valid JSON, so the JSON status is honored and the result
is `Failure`, not `Success`. -/
theorem stderr_append_cex :
    (parseJson "\x7b\"status\":\"fail\",\"output\":\"x\"\x7d").isSome = true
    ∧ (" " : String) ≠ ""
    ∧ (ExecuteCheck [] ⟨"c", "", "command", "mycmd", []⟩ .finished
        { startErr := none, wait := .ok,
          stdout := "\x7b\"status\":\"fail\",\"output\":\"x\"\x7d", stderr := " " }).1.status
      = Failure
    ∧ Failure ≠ Success :=
  ⟨rfl, by decide, rfl, by decide⟩

/-- Claim C9, amended: on exit zero the adapter appends the trimmed
stderr (whenever the raw stderr buffer is non-empty, separated by a
newline when the trimmed stdout is non-empty) to the trimmed stdout
before JSON parsing; whenever the combined text does not unmarshal as
a JSON object — in particular when a non-whitespace stderr trails a
JSON stdout — the check is classified as unstructured and yields
`Success` with the combined text as output. -/
theorem stderr_append (reg : Registry) (check : CheckItem) (env : CmdEnv)
    (h1 : reg.lookup check.type = none) (h2 : check.type = "command")
    (h3 : check.command ≠ "") (h4 : env.startErr = none) :
    (env.stderr ≠ "" →
      combinedOutput env.stdout env.stderr
        = (if trimSpace env.stdout ≠ "" then trimSpace env.stdout ++ "\n"
           else trimSpace env.stdout) ++ trimSpace env.stderr)
    ∧ (env.wait = .ok → unmarshalObj (combinedOutput env.stdout env.stderr) = none →
      (ExecuteCheck reg check .finished env).1
        = { name := check.name, type := check.type, status := Success,
            output := combinedOutput env.stdout env.stderr }) := by
  rw [h2] at h1
  refine ⟨fun he => ?_, fun hw hun => ?_⟩
  · simp [combinedOutput, he]
  · simp [ExecuteCheck, h1, h2, h3, h4, classifyCmdOutput, hw, hun, ProcessOutput,
      errorFieldOf, processStatusPart, outputOnlyBase, copyOutputField, getField, JValue.isNull]

/-- Concrete instantiation of `stderr_append`: a JSON stdout followed
by a real stderr message is classified as unstructured `Success`. -/
theorem stderr_append_witness :
    combinedOutput "\x7b\"status\":\"fail\"\x7d" "oops"
      = "\x7b\"status\":\"fail\"\x7d\noops"
    ∧ (ExecuteCheck [] ⟨"c", "", "command", "mycmd", []⟩ .finished
        { startErr := none, wait := .ok,
          stdout := "\x7b\"status\":\"fail\"\x7d", stderr := "oops" }).1
      = { name := "c", type := "command", status := Success,
          output := "\x7b\"status\":\"fail\"\x7d\noops" } := by
  have h := stderr_append [] ⟨"c", "", "command", "mycmd", []⟩
    { startErr := none, wait := .ok,
      stdout := "\x7b\"status\":\"fail\"\x7d", stderr := "oops" }
    rfl rfl (by decide) rfl
  constructor
  · have h1 := h.1 (by decide)
    simpa using h1
  · have h2 := h.2 rfl rfl
    simpa using h2

/-! ### Claim C4 — diagnostics on Error results -/

/-- The claim's invariant, weakened to either field: an `Error` result
carries a non-empty diagnostic in `error` or in `output`. -/
def ErrorHasDiag (r : CheckResult) : Prop :=
  r.status = Error → r.error ≠ "" ∨ r.output ≠ ""

theorem errorFieldOf_some_ne (fields : List (String × JValue)) (e : String)
    (h : errorFieldOf fields = some e) : e ≠ "" := by
  unfold errorFieldOf at h
  rcases hg : getField fields "error" with _ | v
  · rw [hg] at h
    exact nomatch h
  · rw [hg] at h
    cases v <;> dsimp only at h
    case str s =>
      by_cases hs : s = ""
      · rw [if_pos hs] at h
        exact nomatch h
      · rw [if_neg hs] at h
        injection h with h'
        exact h' ▸ hs
    all_goals exact nomatch h

theorem statusStringBase_diag (n t s : String)
    (h : (statusStringBase n t s).status = Error) : (statusStringBase n t s).error ≠ "" := by
  unfold statusStringBase at h ⊢
  split_ifs at h ⊢ <;> dsimp only at h ⊢
  · exact absurd h (by decide)
  · exact absurd h (by decide)
  · exact absurd h (by decide)
  · exact append_ne_empty_left _ _ (by decide)

theorem outputOnlyBase_diag (n t : String) (fields : List (String × JValue))
    (h : (outputOnlyBase n t fields).status = Error) : (outputOnlyBase n t fields).error ≠ "" := by
  unfold outputOnlyBase at h ⊢
  rcases ho : getField fields "output" with _ | w <;> rw [ho] at h <;> dsimp only at h ⊢
  · decide
  · by_cases hw : w.isNull
    · rw [if_pos hw]
      dsimp only
      decide
    · rw [if_neg hw] at h
      dsimp only at h
      exact absurd h (by decide)

theorem processOutput_error_diag (n t : String) (fields : List (String × JValue)) :
    ErrorHasDiag (ProcessOutput n t fields) := by
  rcases he : errorFieldOf fields with _ | e
  · simp only [ProcessOutput, he, processStatusPart]
    rcases hst : getField fields "status" with _ | v
    · simp only [hst]
      intro hs
      rw [copyOutputField_status] at hs
      left
      rw [copyOutputField_error]
      exact outputOnlyBase_diag n t fields hs
    · cases v <;> simp only [hst] <;> intro hs <;> rw [copyOutputField_status] at hs <;>
        left <;> rw [copyOutputField_error]
      all_goals first
        | exact statusStringBase_diag n t _ hs
        | exact outputOnlyBase_diag n t fields hs
  · simp only [ProcessOutput, he]
    intro _
    exact .inl (errorFieldOf_some_ne fields e he)

theorem backfillIdentity_diag (r : CheckResult) (c : CheckItem) (h : ErrorHasDiag r) :
    ErrorHasDiag (backfillIdentity r c) := by
  simp only [backfillIdentity]
  split_ifs <;> exact h

/-- The result recorded by `collectOne` for one posted message. -/
def postedResult (p : Posted) : CheckResult :=
  match p.err with
  | some .deadlineExceeded => schedTimeoutResult p.item
  | some (.other m) => checkFailedResult p.item m
  | none => p.result

theorem collectOne_results (st : RunState) (p : Posted) :
    (collectOne st p).results = st.results ++ [postedResult p] := by
  rcases p with ⟨item, result, err⟩
  rcases err with _ | g
  · by_cases hs : result.status ≠ Success <;> simp [collectOne, postedResult, hs]
  · rcases g with _ | m <;> simp [collectOne, postedResult]

theorem postedResult_diag (p : Posted) (h : ErrorHasDiag p.result) :
    ErrorHasDiag (postedResult p) := by
  rcases p with ⟨item, result, err⟩
  rcases err with _ | g
  · exact h
  · rcases g with _ | m
    · intro _
      right
      exact (by decide : ("check execution timed out" : String) ≠ "")
    · intro _
      right
      exact append_ne_empty_left _ _ (by decide)

theorem collect_error_diag (posted : List Posted) (st : RunState)
    (hst : ∀ r ∈ st.results, ErrorHasDiag r)
    (hp : ∀ p ∈ posted, ErrorHasDiag p.result) :
    ∀ r ∈ (posted.foldl collectOne st).results, ErrorHasDiag r := by
  induction posted generalizing st with
  | nil => exact hst
  | cons p ps ih =>
    rw [List.foldl_cons]
    apply ih
    · intro r hr
      rw [collectOne_results] at hr
      rcases List.mem_append.mp hr with h | h
      · exact hst r h
      · rw [List.mem_singleton] at h
        exact h ▸ postedResult_diag p (hp p (List.mem_cons_self ..))
    · exact fun q hq => hp q (List.mem_cons_of_mem _ hq)

/-- Counterexample to claim C4 as stated: an unsupported-type result
has status `Error` with an empty `error` field (the diagnostic sits in
`output` instead). -/
theorem error_diagnostic_cex :
    (ExecuteCheck [] ⟨"w", "", "widget", "", []⟩ .finished {}).1.status = Error
    ∧ (ExecuteCheck [] ⟨"w", "", "widget", "", []⟩ .finished {}).1.error = "" :=
  ⟨rfl, rfl⟩

/-- Claim C4, amended: every `Error` result the engine produces carries
a non-empty diagnostic in its `error` field or in its `output` field
(timeouts, unsupported types and missing commands use `output`),
provided the environment's wait errors are non-empty messages and any
registered native check keeps the same invariant. -/
theorem error_diagnostic (reg : Registry) (check : CheckItem) (race : RaceEvent) (env : CmdEnv)
    (checks : List CheckItem) (posted : List Posted)
    (hwait : ∀ m, env.wait = .failMsg m → m ≠ "")
    (hnative : ∀ c, reg.lookup check.type = some c → ErrorHasDiag (c.func check).1) :
    ErrorHasDiag (ExecuteCheck reg check race env).1
    ∧ ((∀ p ∈ posted, ErrorHasDiag p.result) →
       ∀ r ∈ (runCollect checks posted).results, ErrorHasDiag r) := by
  constructor
  · rcases hl : reg.lookup check.type with _ | c
    · by_cases h2 : check.type ≠ "command"
      · simp only [ExecuteCheck, hl, if_pos h2]
        intro _
        right
        exact append_ne_empty_left _ _ (by decide)
      · by_cases h3 : check.command = ""
        · simp only [ExecuteCheck, hl, if_neg h2, if_pos h3]
          intro _
          right
          exact (by decide : ("no command specified" : String) ≠ "")
        · rcases hs : env.startErr with _ | m
          · cases race with
            | finished =>
              simp only [ExecuteCheck, hl, if_neg h2, if_neg h3, hs, classifyCmdOutput]
              rcases hw : env.wait with _ | code | m
              · simp only [hw]
                rcases hu : unmarshalObj (combinedOutput env.stdout env.stderr) with _ | fields
                · simp only [hu]
                  exact processOutput_error_diag check.name check.type _
                · simp only [hu]
                  exact processOutput_error_diag check.name check.type fields
              · simp only [hw]
                intro _
                left
                exact append_ne_empty_left _ _ (by decide)
              · simp only [hw]
                intro _
                left
                exact hwait m hw
            | timedOut =>
              simp only [ExecuteCheck, hl, if_neg h2, if_neg h3, hs]
              intro _
              right
              exact (by decide : ("command execution timed out" : String) ≠ "")
            | canceled msg =>
              simp only [ExecuteCheck, hl, if_neg h2, if_neg h3, hs]
              intro hstat
              exact absurd hstat (by decide)
          · simp only [ExecuteCheck, hl, if_neg h2, if_neg h3, hs]
            intro _
            left
            exact append_ne_empty_left _ _ (by decide)
    · cases race with
      | finished =>
        simp only [ExecuteCheck, hl]
        rcases hf : (c.func check).2 with _ | e
        · simp only [hf]
          exact backfillIdentity_diag _ _ (hnative c hl)
        · simp only [hf]
          intro _
          left
          exact append_ne_empty_left _ _ (by decide)
      | timedOut =>
        simp only [ExecuteCheck, hl]
        intro _
        right
        exact (by decide : ("command execution timed out" : String) ≠ "")
      | canceled msg =>
        simp only [ExecuteCheck, hl]
        intro hstat
        exact absurd hstat (by decide)
  · intro hp r hr
    unfold runCollect at hr
    split_ifs at hr
    · rcases synthPhase_results_mem _ _ r hr with h | ⟨c, _, he⟩
      · exact collect_error_diag posted {} (by simp) hp r h
      · rw [he]
        intro _
        right
        exact (by decide : ("check execution timed out" : String) ≠ "")
    · exact collect_error_diag posted {} (by simp) hp r hr

/-- Concrete instantiation of `error_diagnostic`. -/
theorem error_diagnostic_witness :
    ErrorHasDiag (ExecuteCheck [] ⟨"w", "", "widget", "", []⟩ .finished {}).1 :=
  (error_diagnostic [] ⟨"w", "", "widget", "", []⟩ .finished {} [] []
    (fun _ h => nomatch h) (fun _ h => nomatch h)).1

/-! ### Claim C8 — deterministic sorted aggregation -/

/-- Claim C8: the aggregation handed to the formatter is a pure
function of the collected results: it presents the same multiset,
sorted ascending by name, and identical inputs always give identical
outputs; `runSortedResults` is exactly this sort applied to the
collection loop's results. -/
theorem aggregation_sorted (results rs₁ rs₂ : List CheckResult)
    (checks : List CheckItem) (posted : List Posted) :
    (sortResults results).Perm results
    ∧ (sortResults results).Pairwise (fun a b => a.name ≤ b.name)
    ∧ (rs₁ = rs₂ → sortResults rs₁ = sortResults rs₂)
    ∧ runSortedResults checks posted = sortResults (runCollect checks posted).results := by
  refine ⟨List.mergeSort_perm results _, ?_, fun h => by rw [h], rfl⟩
  have h := @List.sorted_mergeSort CheckResult (fun a b => decide (a.name ≤ b.name))
    (fun a b c h₁ h₂ => by
      simp only [decide_eq_true_eq] at h₁ h₂ ⊢
      exact le_trans h₁ h₂)
    (fun a b => by
      simp only [Bool.or_eq_true, decide_eq_true_eq]
      exact le_total a.name b.name)
    results
  exact h.imp (fun h' => by simpa using h')

/-- Concrete instantiation of `aggregation_sorted` (determinism
conjunct). -/
theorem aggregation_sorted_witness :
    sortResults ([] : List CheckResult) = sortResults [] :=
  (aggregation_sorted [] [] [] [] []).2.2.1 rfl

/-! ### Claim C1 — completeness of the result set -/

theorem postedResult_name (p : Posted) (h : p.result.name = p.item.name) :
    (postedResult p).name = p.item.name := by
  rcases p with ⟨item, result, err⟩
  rcases err with _ | g
  · exact h
  · rcases g with _ | m <;> rfl

theorem foldl_collectOne_results_length (posted : List Posted) (st : RunState) :
    ((posted.foldl collectOne st).results).length = st.results.length + posted.length := by
  induction posted generalizing st with
  | nil => simp
  | cons p ps ih =>
    rw [List.foldl_cons, ih, collectOne_results]
    simp
    omega

theorem foldl_collectOne_names (posted : List Posted) (st : RunState)
    (h : ∀ p ∈ posted, p.result.name = p.item.name) :
    ((posted.foldl collectOne st).results).map (fun r => r.name)
      = (st.results.map fun r => r.name) ++ posted.map (fun p => p.item.name) := by
  induction posted generalizing st with
  | nil => simp
  | cons p ps ih =>
    rw [List.foldl_cons, ih _ (fun q hq => h q (List.mem_cons_of_mem _ hq)), collectOne_results]
    rw [List.map_append, List.append_assoc]
    simp [postedResult_name p (h p (List.mem_cons_self ..))]

theorem hasName_eq_decide (rs : List CheckResult) (n : String) :
    hasName rs n = decide (n ∈ rs.map (fun r => r.name)) := by
  induction rs with
  | nil => rfl
  | cons r rs ih =>
    have h1 : hasName (r :: rs) n = ((r.name == n) || hasName rs n) := rfl
    rw [h1, ih]
    by_cases he : n = r.name
    · subst he
      simp
    · have hb : (r.name == n) = false := beq_eq_false_iff_ne.mpr (fun hh => he hh.symm)
      simp [hb, he]

theorem synthPhase_results_length (checks : List CheckItem) (st : RunState)
    (hnd : (checks.map (fun c => c.name)).Nodup) :
    ((synthPhase checks st).results).length
      = st.results.length + (checks.filter (fun c => ! hasName st.results c.name)).length := by
  induction checks generalizing st with
  | nil => simp [synthPhase]
  | cons c cs ih =>
    simp only [List.map_cons, List.nodup_cons] at hnd
    obtain ⟨hc, hcs⟩ := hnd
    have hstep : synthPhase (c :: cs) st = synthPhase cs (synthStep st c) := rfl
    rw [hstep]
    by_cases h : hasName st.results c.name
    · have h1 : synthStep st c = st := by simp [synthStep, h]
      have hfc : (c :: cs).filter (fun c' => ! hasName st.results c'.name)
          = cs.filter (fun c' => ! hasName st.results c'.name) := by
        rw [List.filter_cons]
        simp [h]
      rw [h1, ih _ hcs, hfc]
    · have h1 : (synthStep st c).results = st.results ++ [schedTimeoutResult c] := by
        simp [synthStep, h]
      have hfilters : cs.filter (fun c' => ! hasName (synthStep st c).results c'.name)
          = cs.filter (fun c' => ! hasName st.results c'.name) := by
        apply List.filter_congr
        intro c' hc'
        have hne : ¬ c.name = c'.name := fun he => hc (he ▸ List.mem_map_of_mem _ hc')
        have hb : (c.name == c'.name) = false := beq_eq_false_iff_ne.mpr hne
        rw [h1]
        simp [hasName, List.any_append, schedTimeoutResult, hb]
      have hfc : (c :: cs).filter (fun c' => ! hasName st.results c'.name)
          = c :: cs.filter (fun c' => ! hasName st.results c'.name) := by
        rw [List.filter_cons]
        simp [h]
      rw [ih _ hcs, hfilters, hfc, h1]
      simp
      omega

theorem filter_name_length (l : List CheckItem) (p : String → Bool) :
    (l.filter (fun c => p c.name)).length = ((l.map (fun c => c.name)).filter p).length := by
  induction l with
  | nil => rfl
  | cons c cs ih =>
    rw [List.map_cons, List.filter_cons, List.filter_cons]
    cases h : p c.name <;> simp [h, ih]

theorem name_count (ns L : List String) (hL : L.Nodup) (hns : ns.Nodup)
    (hsub : ∀ a ∈ ns, a ∈ L) :
    (L.filter (fun a => ! decide (a ∈ ns))).length = L.length - ns.length := by
  induction ns generalizing L with
  | nil => simp
  | cons b ns' ih =>
    simp only [List.nodup_cons] at hns
    obtain ⟨hb, hns'⟩ := hns
    have hbL : b ∈ L := hsub b (List.mem_cons_self ..)
    have herase : L.erase b = L.filter (fun a => a != b) := hL.erase_eq_filter b
    have hLe : (L.erase b).Nodup := hL.erase b
    have hsub' : ∀ a ∈ ns', a ∈ L.erase b := by
      intro a ha
      rw [herase, List.mem_filter]
      refine ⟨hsub a (List.mem_cons_of_mem _ ha), ?_⟩
      simp only [bne_iff_ne, ne_eq]
      exact fun he => hb (he ▸ ha)
    have hf : L.filter (fun a => ! decide (a ∈ b :: ns'))
        = (L.erase b).filter (fun a => ! decide (a ∈ ns')) := by
      rw [herase, List.filter_filter]
      apply List.filter_congr
      intro a _
      by_cases hab : a = b
      · subst hab
        simp [List.mem_cons]
      · simp [List.mem_cons, hab]
    rw [hf, ih _ hLe hns' hsub', List.length_erase_of_mem hbL]
    have hpos : 1 ≤ L.length := List.length_pos_of_mem hbL
    simp only [List.length_cons]
    omega

/-- Counterexample to claim C1 as stated: two CheckSpecs sharing the
name `"a"`, one completing before the run deadline and one still
outstanding, produce one result instead of two — the deadline branch
matches by name and skips the hung duplicate. -/
theorem run_completeness_cex :
    (runCollect
        [⟨"a", "", "command", "sleep 5", []⟩, ⟨"a", "", "command", "sleep 9", []⟩]
        [⟨⟨"a", "", "command", "sleep 5", []⟩, ⟨"a", "command", Success, "done", ""⟩, none⟩]
      ).results.length = 1
    ∧ ([⟨"a", "", "command", "sleep 5", []⟩,
        (⟨"a", "", "command", "sleep 9", []⟩ : CheckItem)] : List CheckItem).length = 2 := by
  constructor <;> rfl

/-- Claim C1, amended: the collection loop yields exactly N results
whenever every check posts its outcome before the run deadline, and —
even with outstanding checks at the deadline — whenever the configured
names are pairwise distinct (posted messages coming from distinct
configured checks and carrying their item's name, as `ExecuteCheck`
guarantees); when two CheckSpecs share a name and one is outstanding
at the deadline, fewer than N results can be produced. -/
theorem run_completeness (checks : List CheckItem) (posted : List Posted) :
    (posted.length = checks.length →
      (runCollect checks posted).results.length = checks.length)
    ∧ ((checks.map (fun c => c.name)).Nodup →
       (posted.map (fun p => p.item.name)).Nodup →
       (∀ p ∈ posted, p.item ∈ checks) →
       (∀ p ∈ posted, p.result.name = p.item.name) →
       (runCollect checks posted).results.length = checks.length) := by
  constructor
  · intro h
    unfold runCollect
    rw [if_neg (by omega), foldl_collectOne_results_length]
    simpa using h
  · intro hnd hpnd hpmem hpname
    have hsub : ∀ a ∈ posted.map (fun p => p.item.name), a ∈ checks.map (fun c => c.name) := by
      intro a ha
      obtain ⟨p, hp, rfl⟩ := List.mem_map.mp ha
      exact List.mem_map_of_mem _ (hpmem p hp)
    have hlen : posted.length ≤ checks.length := by
      have hsp := (List.Nodup.subperm hpnd hsub).length_le
      simpa using hsp
    by_cases hlt : posted.length < checks.length
    · unfold runCollect
      rw [if_pos hlt, synthPhase_results_length _ _ hnd, foldl_collectOne_results_length]
      have hnames : ((posted.foldl collectOne {}).results).map (fun r => r.name)
          = posted.map (fun p => p.item.name) := by
        rw [foldl_collectOne_names _ _ hpname]
        simp [RunState.results]
      have hfeq : checks.filter (fun c => ! hasName (posted.foldl collectOne {}).results c.name)
          = checks.filter (fun c => ! decide (c.name ∈ posted.map (fun p => p.item.name))) := by
        apply List.filter_congr
        intro c _
        rw [hasName_eq_decide, hnames]
      have hflen : (checks.filter
            (fun c => ! decide (c.name ∈ posted.map (fun p => p.item.name)))).length
          = ((checks.map (fun c => c.name)).filter
            (fun a => ! decide (a ∈ posted.map (fun p => p.item.name)))).length :=
        filter_name_length checks (fun a => ! decide (a ∈ posted.map (fun p => p.item.name)))
      rw [hfeq, hflen,
        name_count (posted.map fun p => p.item.name) (checks.map fun c => c.name) hnd hpnd hsub]
      simp only [List.length_map, List.length_nil]
      omega
    · unfold runCollect
      rw [if_neg hlt, foldl_collectOne_results_length]
      simp only [List.length_nil]
      omega

/-- Concrete instantiation of `run_completeness`: one check posting
in time, and a two-check distinct-name run with one check outstanding
at the deadline. -/
theorem run_completeness_witness :
    (runCollect [⟨"a", "", "command", "echo hi", []⟩]
        [⟨⟨"a", "", "command", "echo hi", []⟩, ⟨"a", "command", Success, "hi", ""⟩, none⟩]
      ).results.length = 1
    ∧ (runCollect
        [⟨"a", "", "command", "echo hi", []⟩, ⟨"b", "", "command", "sleep 9", []⟩]
        [⟨⟨"a", "", "command", "echo hi", []⟩, ⟨"a", "command", Success, "hi", ""⟩, none⟩]
      ).results.length = 2 := by
  constructor
  · exact (run_completeness [⟨"a", "", "command", "echo hi", []⟩]
      [⟨⟨"a", "", "command", "echo hi", []⟩, ⟨"a", "command", Success, "hi", ""⟩, none⟩]).1 rfl
  · exact (run_completeness
      [⟨"a", "", "command", "echo hi", []⟩, ⟨"b", "", "command", "sleep 9", []⟩]
      [⟨⟨"a", "", "command", "echo hi", []⟩, ⟨"a", "command", Success, "hi", ""⟩, none⟩]).2
      (by decide) (by decide) (by decide) (by decide)

end Checkers
